import Mathlib

/-!
Verification of govvv: the collection of build metadata (`values.go`).

A shallow embedding of `values.go`: the escaping method `Value.transform`, the
version-file fallback `versionFromFile` and the assembler `GetFlags`, together
with the library routines they call (`strings.Replace`, `bytes.TrimSpace`).

Go strings and byte slices are sequences of bytes, so they are lists of `UInt8`
here.  A Go `error` value is `Option GoError` (`none` is `nil`), and a Go
function returning `(T, error)` returns a pair.
-/

set_option autoImplicit false

namespace Govvv

/-! ## Strings -/

/-- A Go `string` (or `[]byte`): a finite sequence of bytes. -/
abbrev GoString := List UInt8

/-- The bytes of an ASCII string literal of the source. -/
def lit (s : String) : GoString := s.toList.map (fun c => UInt8.ofNat c.toNat)

/-- The byte `'` (0x27). -/
abbrev quote : UInt8 := 39
/-- The byte `-` (0x2D). -/
abbrev hyphen : UInt8 := 45
/-- The byte `\` (0x5C). -/
abbrev backslash : UInt8 := 92

/-! ## `unicode/utf8` -/

/-- Constant `utf8.RuneError`, the replacement character U+FFFD. -/
def RuneError : Nat := 0xFFFD
/-- Constant `utf8.RuneSelf`: bytes below it are single-byte runes. -/
def RuneSelf : Nat := 0x80
/-- Constant `utf8.UTFMax`: the longest encoding of a rune. -/
def UTFMax : Nat := 4

/-- Table `utf8.first`: information about the first byte of an encoding; the low
three bits are the size, the high four bits index `acceptRanges`. -/
def first (b : Nat) : Nat :=
  if b < 0x80 then 0xF0        -- as: ASCII, size 1
  else if b < 0xC2 then 0xF1   -- xx: invalid, size 1
  else if b < 0xE0 then 0x02   -- s1
  else if b = 0xE0 then 0x13   -- s2
  else if b < 0xED then 0x03   -- s3
  else if b = 0xED then 0x23   -- s4
  else if b < 0xF0 then 0x03   -- s3
  else if b = 0xF0 then 0x34   -- s5
  else if b < 0xF4 then 0x04   -- s6
  else if b = 0xF4 then 0x44   -- s7
  else 0xF1                    -- xx

/-- Table `utf8.acceptRanges`: the range `(lo, hi)` allowed for the second byte. -/
def acceptRanges (i : Nat) : Nat × Nat :=
  match i with
  | 0 => (0x80, 0xBF)
  | 1 => (0xA0, 0xBF)
  | 2 => (0x80, 0x9F)
  | 3 => (0x90, 0xBF)
  | 4 => (0x80, 0x8F)
  | _ => (0, 0)

/-- Function `utf8.DecodeRune`: the first rune of `p` and its width in bytes;
`(RuneError, 0)` for empty input and `(RuneError, 1)` for an invalid encoding. -/
def DecodeRune (p : GoString) : Nat × Nat :=
  match p with
  | [] => (RuneError, 0)
  | p0 :: _ =>
    let n := p.length
    let x := first p0.toNat
    if x ≥ 0xF0 then
      (if x = 0xF0 then p0.toNat else RuneError, 1)
    else
      let sz := x % 8
      let accept := acceptRanges (x / 16)
      if n < sz then (RuneError, 1) else
      let b1 := (p.getD 1 0).toNat
      if b1 < accept.1 ∨ accept.2 < b1 then (RuneError, 1) else
      if sz ≤ 2 then ((p0.toNat % 32) * 64 + b1 % 64, 2) else
      let b2 := (p.getD 2 0).toNat
      if b2 < 0x80 ∨ 0xBF < b2 then (RuneError, 1) else
      if sz ≤ 3 then ((p0.toNat % 16) * 4096 + (b1 % 64) * 64 + b2 % 64, 3) else
      let b3 := (p.getD 3 0).toNat
      if b3 < 0x80 ∨ 0xBF < b3 then (RuneError, 1) else
      ((p0.toNat % 8) * 262144 + (b1 % 64) * 4096 + (b2 % 64) * 64 + b3 % 64, 4)

/-- Function `utf8.RuneStart`: `b` is not a continuation byte. -/
def RuneStart (b : UInt8) : Bool := decide (b.toNat / 64 ≠ 2)

/-- The backwards scan of `utf8.DecodeLastRune` for the start of the last rune.
The argument and the result are `start + 1`, so that `0` stands for `start = -1`. -/
def lastRuneScan (p : GoString) (lim : Nat) : Nat → Nat
  | 0 => 0
  | s + 1 =>
    if s < lim then s + 1
    else if RuneStart (p.getD s 0) then s + 1
    else lastRuneScan p lim s

/-- Function `utf8.DecodeLastRune`: the last rune of `p` and its width. -/
def DecodeLastRune (p : GoString) : Nat × Nat :=
  let stop := p.length
  if stop = 0 then (RuneError, 0) else
  let r := (p.getD (stop - 1) 0).toNat
  if r < RuneSelf then (r, 1) else
  let lim := stop - UTFMax
  let start := lastRuneScan p lim (stop - 1) - 1
  let d := DecodeRune (p.drop start)
  if start + d.2 ≠ stop then (RuneError, 1) else d

/-- The loop of `utf8.RuneCountInString`; `skip` bytes of the current rune are
still to be passed over. -/
def runeCountFrom : Nat → GoString → Nat
  | _, [] => 0
  | skip + 1, _ :: t => runeCountFrom skip t
  | 0, c :: t => 1 + runeCountFrom ((DecodeRune (c :: t)).2 - 1) t

/-- Function `utf8.RuneCountInString`: the number of runes in `s`, every invalid
byte counting as one rune. -/
def RuneCountInString (s : GoString) : Nat := runeCountFrom 0 s

/-- Function `unicode.IsSpace`: the Unicode White_Space property. -/
def IsSpace (r : Nat) : Bool :=
  if r ≤ 0xFF then
    decide (r = 0x09 ∨ r = 0x0A ∨ r = 0x0B ∨ r = 0x0C ∨ r = 0x0D ∨ r = 0x20 ∨ r = 0x85 ∨ r = 0xA0)
  else
    decide (r = 0x1680 ∨ (0x2000 ≤ r ∧ r ≤ 0x200A) ∨ r = 0x2028 ∨ r = 0x2029 ∨ r = 0x202F
      ∨ r = 0x205F ∨ r = 0x3000)

/-! ## `strings` -/

/-- Function `strings.Index`: the index of the first instance of `substr` in `s`,
or `-1` if there is none. -/
def Index (s substr : GoString) : Int :=
  match s with
  | [] => if substr = [] then 0 else -1
  | c :: t =>
    if substr.isPrefixOf (c :: t) then 0
    else
      let i := Index t substr
      if i = -1 then -1 else i + 1

/-- The general loop of `strings.Count`: find the next instance with `Index`,
count it and continue behind it.  Every round consumes at least one byte of `s`
when `substr` is not empty, so `fuel = len(s)` rounds are enough. -/
def countLoop (substr : GoString) : Nat → GoString → Nat
  | 0, _ => 0
  | fuel + 1, s =>
    let i := Index s substr
    if i = -1 then 0
    else 1 + countLoop substr fuel (s.drop (i.toNat + substr.length))

/-- Function `strings.Count`: the number of non-overlapping instances of `substr`
in `s`; for an empty `substr`, one more than the number of runes of `s`. -/
def Count (s substr : GoString) : Nat :=
  match substr with
  | [] => RuneCountInString s + 1
  | [c] => s.count c
  | _ => countLoop substr s.length s

/-- The replacement loop of `strings.Replace`, with `k` rounds to go on the rest
`s[start:]` of the input; `isFirst` says that this is round `i = 0`. -/
def replaceLoop (old new : GoString) : Nat → Bool → GoString → GoString
  | 0, _, rest => rest
  | k + 1, isFirst, rest =>
    let j : Nat :=
      if old = [] then (if isFirst then 0 else (DecodeRune rest).2)
      else (Index rest old).toNat
    rest.take j ++ new ++ replaceLoop old new k false (rest.drop (j + old.length))

/-- Function `strings.Replace`: a copy of `s` with the first `n` non-overlapping
instances of `old` replaced by `new`; no limit when `n < 0`. -/
def Replace (s old new : GoString) (n : Int) : GoString :=
  if old = new ∨ n = 0 then s
  else
    let m := Count s old
    if m = 0 then s
    else
      let n : Nat := if n < 0 ∨ (m : Int) < n then m else n.toNat
      replaceLoop old new n true s

/-! ## `values.go`: the escaping transform -/

/-- Method `Value.transform`: escape every `'` and then every `-` with a
backslash. -/
def transform (v : GoString) : GoString :=
  let text := v
  let text := Replace text (lit "'") (lit "\\'") (-1)
  let text := Replace text (lit "-") (lit "\\-") (-1)
  text

/-! ## `bytes` -/

/-- The loop of `bytes.indexFunc` from position `start`, the rest of the slice
being the list argument; `skip` bytes of the current rune are still to be
passed over. -/
def indexFuncFrom (f : Nat → Bool) (truth : Bool) : Nat → Nat → GoString → Int
  | _, _, [] => -1
  | skip + 1, start, _ :: t => indexFuncFrom f truth skip (start + 1) t
  | 0, start, c :: t =>
    let d := if c.toNat ≥ RuneSelf then DecodeRune (c :: t) else (c.toNat, 1)
    if f d.1 = truth then (start : Int)
    else indexFuncFrom f truth (d.2 - 1) (start + 1) t

/-- Function `bytes.indexFunc`: the index of the first rune `r` of `s` with
`f(r) == truth`, or `-1`. -/
def indexFunc (s : GoString) (f : Nat → Bool) (truth : Bool) : Int :=
  indexFuncFrom f truth 0 0 s

/-- The loop of `bytes.lastIndexFunc` at position `i`; the list argument is
`s[0:i]` reversed and `skip` bytes of the current rune are still to be passed
over. -/
def lastIndexFuncFrom (f : Nat → Bool) (truth : Bool) : Nat → GoString → Int
  | _, [] => -1
  | skip + 1, _ :: t => lastIndexFuncFrom f truth skip t
  | 0, c :: t =>
    let d := if c.toNat ≥ RuneSelf then DecodeLastRune (c :: t).reverse else (c.toNat, 1)
    if f d.1 = truth then (((c :: t).length - d.2 : Nat) : Int)
    else lastIndexFuncFrom f truth (d.2 - 1) t

/-- Function `bytes.lastIndexFunc`: the index of the last rune `r` of `s` with
`f(r) == truth`, or `-1`. -/
def lastIndexFunc (s : GoString) (f : Nat → Bool) (truth : Bool) : Int :=
  lastIndexFuncFrom f truth 0 s.reverse

/-- Function `bytes.TrimLeftFunc`: `s` without its leading runes satisfying `f`. -/
def TrimLeftFunc (s : GoString) (f : Nat → Bool) : GoString :=
  let i := indexFunc s f false
  if i = -1 then [] else s.drop i.toNat

/-- Function `bytes.TrimRightFunc`: `s` without its trailing runes satisfying `f`. -/
def TrimRightFunc (s : GoString) (f : Nat → Bool) : GoString :=
  let i := lastIndexFunc s f false
  let i : Int :=
    if 0 ≤ i ∧ (s.getD i.toNat 0).toNat ≥ RuneSelf then i + (DecodeRune (s.drop i.toNat)).2
    else i + 1
  s.take i.toNat

/-- Function `bytes.TrimFunc`: `s` without its leading and trailing runes
satisfying `f`. -/
def TrimFunc (s : GoString) (f : Nat → Bool) : GoString :=
  TrimRightFunc (TrimLeftFunc s f) f

/-- Function `bytes.TrimSpace`: `s` without its leading and trailing white
space, as defined by Unicode. -/
def TrimSpace (s : GoString) : GoString := TrimFunc s IsSpace

/-! ## Errors and maps -/

/-- A non-nil Go `error`: its message, and whether `os.IsNotExist` reports it as
a file-not-found error. -/
structure GoError where
  msg : GoString
  notExist : Bool
deriving DecidableEq

/-- Function `os.IsNotExist`; it is false on the `nil` error. -/
def IsNotExist (err : Option GoError) : Bool :=
  match err with
  | none => false
  | some e => e.notExist

/-- The error made by `fmt.Errorf` from the formatted message; it is a plain
error string, never a file-not-found error. -/
def Errorf (msg : GoString) : GoError := ⟨msg, false⟩

/-- A Go `map[string]string`, as its entries; every key occurs at most once in
a map built with `GoMap.set` from `GoMap.empty`. -/
structure GoMap where
  entries : List (GoString × GoString)
deriving DecidableEq

namespace GoMap

/-- The empty map. -/
def empty : GoMap := ⟨[]⟩

/-- Assignment to the key `k` in a list of entries. -/
def setEntries (k v : GoString) : List (GoString × GoString) → List (GoString × GoString)
  | [] => [(k, v)]
  | e :: r => if e.1 = k then (k, v) :: r else e :: setEntries k v r

/-- Assignment `m[k] = v`. -/
def set (m : GoMap) (k v : GoString) : GoMap := ⟨setEntries k v m.entries⟩

/-- Lookup of the key `k` in a list of entries. -/
def getEntries (k : GoString) : List (GoString × GoString) → Option GoString
  | [] => none
  | e :: r => if e.1 = k then some e.2 else getEntries k r

/-- Lookup `v, ok := m[k]`: `some v` when the key is present. -/
def get? (m : GoMap) (k : GoString) : Option GoString := getEntries k m.entries

/-- The keys of the map. -/
def keys (m : GoMap) : List GoString := m.entries.map Prod.fst

end GoMap

/-! ## `values.go`: collecting the flags -/

/-- What `GetFlags` uses from outside `values.go`: the constants and the
directive scan of the command-line part of the program, the queries of the
`git` repository type (each taking the directory of `git{dir}`), the clock and
the file system. -/
structure World where
  /-- Constant `defaultPackage`. -/
  defaultPackage : GoString
  /-- Constant `flPackage`, the flag of the package directive. -/
  flPackage : GoString
  /-- Constant `flVersion`, the flag of the version directive. -/
  flVersion : GoString
  /-- Function `collectGovvvDirective(args, flag)`. -/
  collectGovvvDirective : List GoString → GoString → GoString × Bool
  /-- Method `git.Branch`. -/
  Branch : GoString → GoString
  /-- Method `git.Commit`. -/
  Commit : GoString → GoString × Option GoError
  /-- Method `git.CommitFull`. -/
  CommitFull : GoString → GoString × Option GoError
  /-- Method `git.CommitMsg`. -/
  CommitMsg : GoString → GoString × Option GoError
  /-- Method `git.CommitFullMsg`. -/
  CommitFullMsg : GoString → GoString × Option GoError
  /-- Method `git.State`. -/
  State : GoString → GoString × Option GoError
  /-- Method `git.Summary`. -/
  Summary : GoString → GoString × Option GoError
  /-- The value of `time.Now().UTC().Format(time.RFC3339)` at the call. -/
  now : GoString
  /-- Function `filepath.Join` of two elements. -/
  Join : GoString → GoString → GoString
  /-- Function `ioutil.ReadFile`. -/
  ReadFile : GoString → GoString × Option GoError

/-- Constant `versionFile`. -/
def versionFile : GoString := lit "VERSION"

/-- Function `date`: the UTC date formatted in RFC 3339 layout. -/
def date (w : World) : GoString := w.now

/-- Function `versionFromFile`: the trimmed contents of the file `VERSION` in
`dir`; the empty string and no error when the file does not exist. -/
def versionFromFile (w : World) (dir : GoString) : GoString × Option GoError :=
  let fp := w.Join dir versionFile
  let r := w.ReadFile fp
  if IsNotExist r.2 then ([], none)
  else
    match r.2 with
    | some err =>
      ([], some (Errorf (lit "failed to read version file " ++ fp ++ lit ": " ++ err.msg)))
    | none => (TrimSpace r.1, none)

/-- Function `GetFlags`: the data to be passed as ldflags, or `nil` and an error. -/
def GetFlags (w : World) (dir : GoString) (args : List GoString) :
    Option GoMap × Option GoError :=
  let gitBranch := w.Branch dir
  match (w.Commit dir).2 with
  | some err => (none, some (Errorf (lit "failed to get commit: " ++ err.msg)))
  | none =>
  let gitCommit := (w.Commit dir).1
  match (w.CommitFull dir).2 with
  | some err => (none, some (Errorf (lit "failed to get full commit: " ++ err.msg)))
  | none =>
  let gitCommitFull := (w.CommitFull dir).1
  match (w.CommitMsg dir).2 with
  | some err => (none, some (Errorf (lit "failed to get commit message: " ++ err.msg)))
  | none =>
  let gitCommitMsg := (w.CommitMsg dir).1
  match (w.CommitFullMsg dir).2 with
  | some err => (none, some (Errorf (lit "failed to get commit full message: " ++ err.msg)))
  | none =>
  let gitCommitMsgFull := (w.CommitFullMsg dir).1
  match (w.State dir).2 with
  | some err => (none, some (Errorf (lit "failed to get repository state: " ++ err.msg)))
  | none =>
  let gitState := (w.State dir).1
  match (w.Summary dir).2 with
  | some err => (none, some (Errorf (lit "failed to get repository summary: " ++ err.msg)))
  | none =>
  let gitSummary := (w.Summary dir).1
  -- prefix keys with package to be used by ldflags -X
  let d := w.collectGovvvDirective args w.flPackage
  let pkg := if d.2 then d.1 else w.defaultPackage
  let v := GoMap.empty
    |>.set (pkg ++ lit ".BuildDate") (date w)
    |>.set (pkg ++ lit ".GitCommit") gitCommit
    |>.set (pkg ++ lit ".GitCommitFull") gitCommitFull
    |>.set (pkg ++ lit ".GitCommitMsg") (transform gitCommitMsg)
    |>.set (pkg ++ lit ".GitCommitMsgFull") (transform gitCommitMsgFull)
    |>.set (pkg ++ lit ".GitBranch") gitBranch
    |>.set (pkg ++ lit ".GitState") gitState
    |>.set (pkg ++ lit ".GitSummary") gitSummary
  -- calculate the version
  let d := w.collectGovvvDirective args w.flVersion
  if d.2 then (some (v.set (pkg ++ lit ".Version") d.1), none)
  else
    let r := versionFromFile w dir
    match r.2 with
    | some err => (none, some err)
    | none =>
      if r.1 ≠ [] then (some (v.set (pkg ++ lit ".Version") r.1), none)
      else (some v, none)

/-- The package prefix that `GetFlags` computes in `pkg`: the value of the
package directive when the scan finds one, `defaultPackage` otherwise. -/
def resolvedPackage (w : World) (args : List GoString) : GoString :=
  if (w.collectGovvvDirective args w.flPackage).2 then
    (w.collectGovvvDirective args w.flPackage).1
  else w.defaultPackage

/-- The map that the map literal of `GetFlags` builds in `v` from the results
of the queries. -/
def fieldMap (w : World) (dir : GoString) (args : List GoString) : GoMap :=
  GoMap.empty
    |>.set (resolvedPackage w args ++ lit ".BuildDate") (date w)
    |>.set (resolvedPackage w args ++ lit ".GitCommit") (w.Commit dir).1
    |>.set (resolvedPackage w args ++ lit ".GitCommitFull") (w.CommitFull dir).1
    |>.set (resolvedPackage w args ++ lit ".GitCommitMsg") (transform (w.CommitMsg dir).1)
    |>.set (resolvedPackage w args ++ lit ".GitCommitMsgFull")
      (transform (w.CommitFullMsg dir).1)
    |>.set (resolvedPackage w args ++ lit ".GitBranch") (w.Branch dir)
    |>.set (resolvedPackage w args ++ lit ".GitState") (w.State dir).1
    |>.set (resolvedPackage w args ++ lit ".GitSummary") (w.Summary dir).1

/-- All six fallible queries of the repository succeed on `dir`. -/
def queriesSucceed (w : World) (dir : GoString) : Prop :=
  (w.Commit dir).2 = none ∧ (w.CommitFull dir).2 = none ∧ (w.CommitMsg dir).2 = none ∧
    (w.CommitFullMsg dir).2 = none ∧ (w.State dir).2 = none ∧ (w.Summary dir).2 = none

instance (w : World) (dir : GoString) : Decidable (queriesSucceed w dir) := by
  unfold queriesSucceed
  infer_instance

/-- The eight keys that the map literal of `GetFlags` assigns under the prefix
`p`. -/
def fieldKeys (p : GoString) : List GoString :=
  [p ++ lit ".BuildDate", p ++ lit ".GitCommit", p ++ lit ".GitCommitFull",
    p ++ lit ".GitCommitMsg", p ++ lit ".GitCommitMsgFull", p ++ lit ".GitBranch",
    p ++ lit ".GitState", p ++ lit ".GitSummary"]

/-! ## A sample environment -/

/-- Modelled from the spec: the directive scan `collectGovvvDirective` is not in
`values.go`; the specification describes it as a linear scan over the argument
list for a flag name, the directive's value being the argument that follows
the flag. -/
def collectGovvvDirective : List GoString → GoString → GoString × Bool
  | [], _ => ([], false)
  | [_], _ => ([], false)
  | a :: v :: rest, flag =>
    if a = flag then (v, true) else collectGovvvDirective (v :: rest) flag

/-- The error of reading a file that does not exist. -/
def errNotExist : GoError := ⟨lit "no such file or directory", true⟩

/-- The error of a query on a directory that is not a checkout. -/
def errNotRepository : GoError := ⟨lit "not a git repository", false⟩

/-- The error of reading a file without the permission to. -/
def errPermission : GoError := ⟨lit "permission denied", false⟩

/-- A sample environment: a checkout in `/src` whose last commit has the
message `it's-a-test`, with `commit` the result of the `Commit` query and
`file` the result of reading `/src/VERSION`. -/
def sampleWorld (commit file : GoString × Option GoError) : World where
  defaultPackage := lit "main"
  flPackage := lit "-pkg"
  flVersion := lit "-version"
  collectGovvvDirective := collectGovvvDirective
  Branch := fun _ => lit "fix-it"
  Commit := fun _ => commit
  CommitFull := fun _ => (lit "1a2b3c4d5e6f", none)
  CommitMsg := fun _ => (lit "it's-a-test", none)
  CommitFullMsg := fun _ => (lit "it's-a-test\n\nbody", none)
  State := fun _ => (lit "dirty", none)
  Summary := fun _ => (lit "v1.0-2-g1a2b3c4-dirty", none)
  now := lit "2024-01-15T10:30:00Z"
  Join := fun d f => d ++ lit "/" ++ f
  ReadFile := fun p => if p = lit "/src/VERSION" then file else ([], some errNotExist)

/-- The directory of the sample checkout. -/
def sampleDir : GoString := lit "/src"

/-- The successful result of the `Commit` query in the sample checkout. -/
def sampleCommit : GoString × Option GoError := (lit "1a2b3c4", none)

/-- The sample checkout without a `VERSION` file. -/
def sampleNoFile : World := sampleWorld sampleCommit ([], some errNotExist)

/-- The sample checkout with a `VERSION` file holding `1.2.3` and a newline. -/
def sampleWithFile : World := sampleWorld sampleCommit (lit "1.2.3\n", none)

/-! ## The specification's side of the escaping transform -/

/-- The escape of one byte in the words of the specification: a single quote
becomes backslash-quote, a hyphen becomes backslash-hyphen, any other byte is
copied. -/
def escapeSpec (c : UInt8) : GoString :=
  if c = quote then [backslash, quote]
  else if c = hyphen then [backslash, hyphen]
  else [c]

/-- The un-escape matching `transform`: replace every backslash-hyphen by a
hyphen, then every backslash-quote by a quote. -/
def unescape (t : GoString) : GoString :=
  let text := t
  let text := Replace text (lit "\\-") (lit "-") (-1)
  let text := Replace text (lit "\\'") (lit "'") (-1)
  text

/-- One left-to-right pass over `t` that replaces every backslash followed by
`q` by `q`; what `strings.Replace` computes for this two-byte pattern. -/
def unescapeByte (q : UInt8) : GoString → GoString
  | [] => []
  | [c] => [c]
  | c :: d :: t =>
    if c = backslash ∧ d = q then q :: unescapeByte q t
    else c :: unescapeByte q (d :: t)

/-- Every `'` and every `-` of `t` stands right after a backslash that is not
itself right after a backslash. -/
def escapedOnce (t : GoString) : Bool :=
  (List.range t.length).all fun i =>
    if t.getD i 0 = quote ∨ t.getD i 0 = hyphen then
      decide (1 ≤ i ∧ t.getD (i - 1) 0 = backslash ∧ (2 ≤ i → t.getD (i - 2) 0 ≠ backslash))
    else true

/-! ## Lemmas on `strings.Index` and `strings.Replace` -/

theorem Index_nil (substr : GoString) (h : substr ≠ []) : Index [] substr = -1 := by
  simp [Index, h]

theorem Index_cons (c : UInt8) (t substr : GoString) :
    Index (c :: t) substr =
      if substr.isPrefixOf (c :: t) then 0
      else if Index t substr = -1 then -1 else Index t substr + 1 := by
  simp [Index]

theorem Index_ge (s substr : GoString) : -1 ≤ Index s substr := by
  induction s with
  | nil => unfold Index; split <;> decide
  | cons c t ih =>
    rw [Index_cons]
    split
    · decide
    · split
      · decide
      · omega

theorem replaceLoop_succ (old new : GoString) (h : old ≠ []) (k : Nat) (b : Bool)
    (rest : GoString) :
    replaceLoop old new (k + 1) b rest =
      rest.take (Index rest old).toNat ++ new ++
        replaceLoop old new k false (rest.drop ((Index rest old).toNat + old.length)) := by
  simp [replaceLoop, h]

/-- A round of the loop on an input that starts with an instance of `old`. -/
theorem replaceLoop_prefix (old new : GoString) (h : old ≠ []) (k : Nat) (b : Bool)
    (c : UInt8) (t : GoString) (hp : old.isPrefixOf (c :: t) = true) :
    replaceLoop old new (k + 1) b (c :: t) =
      new ++ replaceLoop old new k false ((c :: t).drop old.length) := by
  rw [replaceLoop_succ old new h, Index_cons, if_pos hp]
  simp

/-- A round of the loop on an input that does not start with an instance of
`old` but contains one further on: the first byte is copied. -/
theorem replaceLoop_skip (old new : GoString) (h : old ≠ []) (k : Nat) (b b' : Bool)
    (c : UInt8) (t : GoString) (hp : ¬ old.isPrefixOf (c :: t) = true)
    (hi : Index t old ≠ -1) :
    replaceLoop old new (k + 1) b (c :: t) = c :: replaceLoop old new (k + 1) b' t := by
  rw [replaceLoop_succ old new h, replaceLoop_succ old new h, Index_cons, if_neg hp, if_neg hi]
  have hge := Index_ge t old
  have h1 : (Index t old + 1).toNat = (Index t old).toNat + 1 := by omega
  rw [h1]
  simp [Nat.add_right_comm]

/-! ### Replacing a one-byte pattern -/

theorem Index_single_ne (q : UInt8) (t : GoString) (h : q ∈ t) : Index t [q] ≠ -1 := by
  induction t with
  | nil => simp at h
  | cons c t ih =>
    rw [Index_cons]
    by_cases hc : q = c
    · subst hc; simp
    · have hq : q ∈ t := by
        rcases List.mem_cons.1 h with h1 | h1
        · exact absurd h1 hc
        · exact h1
      have hge := Index_ge t [q]
      have := ih hq
      simp only [List.isPrefixOf_cons₂, beq_iff_eq, hc, false_and, Bool.false_eq_true,
        if_false, if_neg this]
      omega

/-- The loop of `Replace` with a one-byte pattern, run once for every instance,
maps every byte of the input. -/
theorem replaceLoop_single (q : UInt8) (new s : GoString) (b : Bool) :
    replaceLoop [q] new (s.count q) b s = s.flatMap (fun c => if c = q then new else [c]) := by
  induction s generalizing b with
  | nil => simp [replaceLoop]
  | cons c t ih =>
    by_cases hc : c = q
    · subst hc
      have hcount : (c :: t).count c = t.count c + 1 := by simp
      rw [hcount, replaceLoop_prefix [c] new (by simp) _ _ _ _ (by simp)]
      simp [ih]
    · have hcount : (c :: t).count q = t.count q := by simp [List.count_cons, hc]
      rw [hcount, List.flatMap_cons, if_neg hc]
      cases hk : t.count q with
      | zero =>
        have := ih b
        rw [hk] at this
        simp only [replaceLoop] at this ⊢
        rw [← this]
        rfl
      | succ k =>
        have hq : q ∈ t := by
          by_contra hq
          rw [List.count_eq_zero.2 hq] at hk
          exact Nat.succ_ne_zero _ hk.symm
        have hp : ¬ [q].isPrefixOf (c :: t) = true := by
          simp [Ne.symm hc]
        rw [replaceLoop_skip [q] new (by simp) k b b c t hp (Index_single_ne q t hq)]
        have := ih b
        rw [hk] at this
        rw [this]
        rfl

/-- Call `strings.Replace(s, q, new, -1)` with a one-byte pattern `q` maps every
byte of `s`: `q` to `new`, any other byte to itself. -/
theorem Replace_single (q : UInt8) (new s : GoString) (h : [q] ≠ new) :
    Replace s [q] new (-1) = s.flatMap (fun c => if c = q then new else [c]) := by
  unfold Replace
  have h0 : ¬ ([q] = new ∨ (-1 : Int) = 0) := by
    rintro (h1 | h1)
    · exact h h1
    · exact absurd h1 (by decide)
  rw [if_neg h0]
  simp only [Count]
  by_cases hm : s.count q = 0
  · rw [if_pos hm]
    have := replaceLoop_single q new s true
    rw [hm] at this
    simpa [replaceLoop] using this
  · rw [if_neg hm]
    have hn : ((-1 : Int) < 0 ∨ ((s.count q : Nat) : Int) < -1) := Or.inl (by decide)
    rw [if_pos hn]
    exact replaceLoop_single q new s true

theorem transform_eq_flatMap (s : GoString) : transform s = s.flatMap escapeSpec := by
  have h1 : lit "'" = [quote] := by decide
  have h2 : lit "\\'" = [backslash, quote] := by decide
  have h3 : lit "-" = [hyphen] := by decide
  have h4 : lit "\\-" = [backslash, hyphen] := by decide
  unfold transform
  simp only [h1, h2, h3, h4]
  rw [Replace_single quote _ s (by decide), Replace_single hyphen _ _ (by decide),
    List.flatMap_assoc]
  apply List.flatMap_congr
  intro c _
  unfold escapeSpec
  by_cases hq : c = quote
  · subst hq; decide
  · by_cases hh : c = hyphen
    · subst hh; decide
    · simp [hq, hh]

/-! ### Replacing a longer pattern -/

theorem countLoop_succ (old : GoString) (fuel : Nat) (s : GoString) :
    countLoop old (fuel + 1) s =
      if Index s old = -1 then 0
      else 1 + countLoop old fuel (s.drop ((Index s old).toNat + old.length)) := by
  simp [countLoop]

/-- One more round of fuel does not change the count once the fuel covers the
length of the input. -/
theorem countLoop_stable (old : GoString) (h : old ≠ []) (fuel : Nat) (s : GoString)
    (hs : s.length ≤ fuel) : countLoop old (fuel + 1) s = countLoop old fuel s := by
  have hl : 0 < old.length := List.length_pos.2 h
  induction fuel generalizing s with
  | zero =>
    have : s = [] := List.length_eq_zero.1 (Nat.le_zero.1 hs)
    subst this
    simp [countLoop, Index_nil old h]
  | succ n ih =>
    rw [countLoop_succ old (n + 1) s, countLoop_succ old n s]
    split
    · rfl
    · rw [ih]
      rw [List.length_drop]
      omega

/-- Any fuel that covers the length of the input gives the count of `Count`. -/
theorem countLoop_eq (old : GoString) (h : old ≠ []) (fuel : Nat) (s : GoString)
    (hs : s.length ≤ fuel) : countLoop old fuel s = countLoop old s.length s := by
  induction fuel with
  | zero =>
    have : s.length = 0 := Nat.le_zero.1 hs
    rw [this]
  | succ n ih =>
    by_cases hn : s.length = n + 1
    · rw [hn]
    · have hle : s.length ≤ n := by omega
      rw [countLoop_stable old h n s hle, ih hle]

theorem countLoop_no_instance (old : GoString) (fuel : Nat) (s : GoString)
    (hi : Index s old = -1) : countLoop old fuel s = 0 := by
  cases fuel with
  | zero => rfl
  | succ n => rw [countLoop_succ, if_pos hi]

/-- The loop of `Replace`, run once for every instance counted by the loop of
`Count`, on an input with a first byte: an instance at the front is replaced
and the loop goes on behind it, otherwise the first byte is copied. -/
theorem replaceLoop_count_cons (old new : GoString) (h : old ≠ []) (b : Bool) (c : UInt8)
    (t : GoString) :
    replaceLoop old new (countLoop old (c :: t).length (c :: t)) b (c :: t) =
      if old.isPrefixOf (c :: t) then
        new ++ replaceLoop old new
          (countLoop old ((c :: t).drop old.length).length ((c :: t).drop old.length)) false
          ((c :: t).drop old.length)
      else c :: replaceLoop old new (countLoop old t.length t) b t := by
  have hl : 0 < old.length := List.length_pos.2 h
  by_cases hp : old.isPrefixOf (c :: t) = true
  · rw [if_pos hp]
    have hcnt : countLoop old (c :: t).length (c :: t) =
        countLoop old ((c :: t).drop old.length).length ((c :: t).drop old.length) + 1 := by
      rw [List.length_cons, countLoop_succ, Index_cons, if_pos hp]
      simp only [Int.toNat_zero, Nat.zero_add]
      rw [if_neg (by decide), countLoop_eq old h t.length]
      · omega
      · rw [List.length_drop, List.length_cons]; omega
    rw [hcnt, replaceLoop_prefix old new h _ _ _ _ hp]
  · rw [if_neg hp]
    by_cases hi : Index t old = -1
    · have h1 : countLoop old (c :: t).length (c :: t) = 0 := by
        apply countLoop_no_instance
        rw [Index_cons, if_neg hp, if_pos hi]
      rw [h1, countLoop_no_instance old _ t hi]
      simp [replaceLoop]
    · have hge := Index_ge t old
      have ht : t ≠ [] := by
        rintro rfl
        exact hi (Index_nil old h)
      obtain ⟨m, hm⟩ : ∃ m, t.length = m + 1 :=
        ⟨t.length - 1, by have := List.length_pos.2 ht; omega⟩
      have hd : (c :: t).drop ((Index t old + 1).toNat + old.length)
          = t.drop ((Index t old).toNat + old.length) := by
        have : (Index t old + 1).toNat + old.length
            = ((Index t old).toNat + old.length) + 1 := by omega
        rw [this, List.drop_succ_cons]
      have h1 : countLoop old (c :: t).length (c :: t) =
          countLoop old (t.drop ((Index t old).toNat + old.length)).length
            (t.drop ((Index t old).toNat + old.length)) + 1 := by
        rw [List.length_cons, countLoop_succ, Index_cons, if_neg hp, if_neg hi]
        have hne : ¬ (Index t old + 1 = -1) := by omega
        rw [if_neg hne, hd, countLoop_eq old h t.length]
        · omega
        · rw [List.length_drop]; omega
      have h2 : countLoop old t.length t =
          countLoop old (t.drop ((Index t old).toNat + old.length)).length
            (t.drop ((Index t old).toNat + old.length)) + 1 := by
        rw [hm, countLoop_succ, if_neg hi, countLoop_eq old h m]
        · omega
        · rw [List.length_drop]; omega
      rw [h1, h2]
      exact replaceLoop_skip old new h _ b b c t hp hi

/-- Call `strings.Replace(s, old, new, -1)` with a pattern of two bytes or more
is the loop of `Replace` run once for every instance. -/
theorem Replace_long (a b : UInt8) (r new s : GoString) (h : a :: b :: r ≠ new) :
    Replace s (a :: b :: r) new (-1) =
      replaceLoop (a :: b :: r) new (countLoop (a :: b :: r) s.length s) true s := by
  unfold Replace
  have h0 : ¬ (a :: b :: r = new ∨ (-1 : Int) = 0) := by
    rintro (h1 | h1)
    · exact h h1
    · exact absurd h1 (by decide)
  rw [if_neg h0]
  simp only [Count]
  by_cases hm : countLoop (a :: b :: r) s.length s = 0
  · rw [if_pos hm, hm]
    simp [replaceLoop]
  · rw [if_neg hm]
    have hn : ((-1 : Int) < 0 ∨ ((countLoop (a :: b :: r) s.length s : Nat) : Int) < -1) :=
      Or.inl (by decide)
    rw [if_pos hn]

theorem replaceLoop_unescape (q : UInt8) (n : Nat) :
    ∀ (s : GoString) (b : Bool), s.length ≤ n →
      replaceLoop [backslash, q] [q] (countLoop [backslash, q] s.length s) b s
        = unescapeByte q s := by
  induction n with
  | zero =>
    intro s b hs
    have : s = [] := List.length_eq_zero.1 (Nat.le_zero.1 hs)
    subst this
    simp [replaceLoop, countLoop, unescapeByte]
  | succ n ih =>
    intro s b hs
    match s, hs with
    | [], _ => simp [replaceLoop, countLoop, unescapeByte]
    | [c], _ =>
      rw [replaceLoop_count_cons _ _ (by simp)]
      simp [replaceLoop, countLoop, unescapeByte]
    | c :: d :: t, hs =>
      rw [replaceLoop_count_cons _ _ (by simp)]
      have hlen1 : (d :: t).length ≤ n := by simp at hs ⊢; omega
      have hlen2 : t.length ≤ n := by simp at hs ⊢; omega
      by_cases hcd : c = backslash ∧ d = q
      · obtain ⟨rfl, rfl⟩ := hcd
        have hd : (backslash :: d :: t).drop [backslash, d].length = t := rfl
        simp only [unescapeByte, and_self, if_true]
        rw [if_pos (by simp), hd, ih t false hlen2]
        rfl
      · have hp : ¬ [backslash, q].isPrefixOf (c :: d :: t) = true := by
          simp only [List.isPrefixOf_cons₂, beq_iff_eq, Bool.and_eq_true, List.isPrefixOf,
            and_true]
          rintro ⟨h1, h2⟩
          exact hcd ⟨h1.symm, h2.symm⟩
        rw [if_neg hp, ih (d :: t) b hlen1]
        simp only [unescapeByte, if_neg hcd]

/-- Call `strings.Replace(s, "\\q", "q", -1)` removes the backslash in front of
every `q`, in one pass from the left. -/
theorem Replace_unescape (q : UInt8) (s : GoString) :
    Replace s [backslash, q] [q] (-1) = unescapeByte q s := by
  rw [Replace_long backslash q [] [q] s (by simp)]
  exact replaceLoop_unescape q s.length s true (Nat.le_refl _)

/-! ### Un-escaping the output of `transform` -/

theorem unescapeByte_cons (q c : UInt8) (l : GoString)
    (h : c ≠ backslash ∨ l.head? ≠ some q) :
    unescapeByte q (c :: l) = c :: unescapeByte q l := by
  cases l with
  | nil => simp [unescapeByte]
  | cons d t =>
    have hcd : ¬ (c = backslash ∧ d = q) := by
      rintro ⟨h1, h2⟩
      rcases h with h | h
      · exact h h1
      · exact h (by simp [h2])
    simp only [unescapeByte, if_neg hcd]

theorem escapeSpec_quote : escapeSpec quote = [backslash, quote] := by decide

theorem escapeSpec_hyphen : escapeSpec hyphen = [backslash, hyphen] := by decide

theorem escapeSpec_other (c : UInt8) (hq : c ≠ quote) (hh : c ≠ hyphen) :
    escapeSpec c = [c] := by
  simp [escapeSpec, hq, hh]

theorem head_flatMap_escapeSpec (s : GoString) :
    (s.flatMap escapeSpec).head? ≠ some hyphen ∧ (s.flatMap escapeSpec).head? ≠ some quote := by
  cases s with
  | nil => simp
  | cons c t =>
    rw [List.flatMap_cons]
    by_cases hq : c = quote
    · subst hq
      rw [escapeSpec_quote]
      simp only [List.cons_append, List.head?_cons, ne_eq, Option.some.injEq]
      decide
    · by_cases hh : c = hyphen
      · subst hh
        rw [escapeSpec_hyphen]
        simp only [List.cons_append, List.head?_cons, ne_eq, Option.some.injEq]
        decide
      · rw [escapeSpec_other c hq hh]
        simp [hq, hh]

theorem unescapeByte_hyphen_escape (s : GoString) :
    unescapeByte hyphen (s.flatMap escapeSpec)
      = s.flatMap (fun c => if c = quote then [backslash, quote] else [c]) := by
  induction s with
  | nil => simp [unescapeByte]
  | cons c t ih =>
    rw [List.flatMap_cons, List.flatMap_cons]
    by_cases hq : c = quote
    · subst hq
      rw [escapeSpec_quote]
      simp only [if_true, List.cons_append, List.nil_append]
      rw [unescapeByte_cons hyphen backslash _
          (Or.inr (by simp only [List.head?_cons, ne_eq, Option.some.injEq]; decide)),
        unescapeByte_cons hyphen quote _ (Or.inl (by decide)), ih]
    · by_cases hh : c = hyphen
      · subst hh
        rw [escapeSpec_hyphen]
        simp only [if_neg hq, List.cons_append, List.nil_append]
        simp only [unescapeByte, and_self, if_true]
        rw [ih]
      · rw [escapeSpec_other c hq hh]
        simp only [if_neg hq, List.cons_append, List.nil_append]
        rw [unescapeByte_cons hyphen c _ (Or.inr (head_flatMap_escapeSpec t).1), ih]

theorem unescapeByte_quote_escape (s : GoString) :
    unescapeByte quote (s.flatMap (fun c => if c = quote then [backslash, quote] else [c]))
      = s := by
  have hhead : ∀ t : GoString,
      (t.flatMap (fun c => if c = quote then [backslash, quote] else [c])).head?
        ≠ some quote := by
    intro t
    cases t with
    | nil => simp
    | cons c t =>
      rw [List.flatMap_cons]
      by_cases hq : c = quote
      · simp only [if_pos hq, List.cons_append, List.head?_cons, ne_eq, Option.some.injEq]
        decide
      · simp [hq]
  induction s with
  | nil => simp [unescapeByte]
  | cons c t ih =>
    rw [List.flatMap_cons]
    by_cases hq : c = quote
    · subst hq
      simp only [if_true, List.cons_append, List.nil_append]
      simp only [unescapeByte, and_self, if_true]
      rw [ih]
    · simp only [if_neg hq, List.cons_append, List.nil_append]
      rw [unescapeByte_cons quote c _ (Or.inr (hhead t)), ih]

theorem unescape_transform_eq (s : GoString) : unescape (transform s) = s := by
  have h1 : lit "'" = [quote] := by decide
  have h2 : lit "\\'" = [backslash, quote] := by decide
  have h3 : lit "-" = [hyphen] := by decide
  have h4 : lit "\\-" = [backslash, hyphen] := by decide
  unfold unescape
  simp only [h1, h2, h3, h4]
  rw [Replace_unescape, Replace_unescape, transform_eq_flatMap, unescapeByte_hyphen_escape,
    unescapeByte_quote_escape]

theorem flatMap_escapeSpec_of_safe (s : GoString) (hq : quote ∉ s) (hh : hyphen ∉ s) :
    s.flatMap escapeSpec = s := by
  have : s.flatMap escapeSpec = s.flatMap (fun c => [c]) := by
    apply List.flatMap_congr
    intro c hc
    have h1 : c ≠ quote := fun h => hq (h ▸ hc)
    have h2 : c ≠ hyphen := fun h => hh (h ▸ hc)
    simp [escapeSpec, h1, h2]
  rw [this, List.flatMap_singleton']

/-! ## The claims on the escaping transform -/

/-- C1: `transform` maps every byte of its input from left to right, a single
quote to backslash-quote, a hyphen to backslash-hyphen and any other byte to
itself; on `it's-a-test` it gives `it\'s\-a\-test`. -/
theorem transform_maps_each_byte :
    (∀ s : GoString, transform s = s.flatMap escapeSpec) ∧
      transform (lit "it's-a-test") = lit "it\\'s\\-a\\-test" :=
  ⟨transform_eq_flatMap, by decide⟩

/-- C2: `transform` returns its input unchanged when the input has no single
quote and no hyphen. -/
theorem transform_safe_input (s : GoString) (hq : quote ∉ s) (hh : hyphen ∉ s) :
    transform s = s := by
  rw [transform_eq_flatMap, flatMap_escapeSpec_of_safe s hq hh]

/-- Witness of C2 on the input `v1.2.3 (release)`. -/
theorem transform_safe_input_witness :
    quote ∉ lit "v1.2.3 (release)" ∧ hyphen ∉ lit "v1.2.3 (release)" ∧
      transform (lit "v1.2.3 (release)") = lit "v1.2.3 (release)" :=
  ⟨by decide, by decide, transform_safe_input _ (by decide) (by decide)⟩

/-- C3: the matching un-escape recovers every input of `transform`, also one
with backslashes of its own, so `transform` is injective; in the output for
`it's-a-test` every quote and every hyphen stands after exactly one backslash. -/
theorem unescape_recovers_input :
    (∀ s : GoString, unescape (transform s) = s) ∧ Function.Injective transform ∧
      escapedOnce (transform (lit "it's-a-test")) = true :=
  ⟨unescape_transform_eq,
    Function.LeftInverse.injective (g := unescape) unescape_transform_eq, by decide⟩

/-- C10: replacing the single quotes first and the hyphens second, as
`transform` does, gives the same string as replacing the hyphens first and the
single quotes second. -/
theorem transform_order_independent (s : GoString) :
    transform s = Replace (Replace s (lit "-") (lit "\\-") (-1)) (lit "'") (lit "\\'") (-1) := by
  have h1 : lit "'" = [quote] := by decide
  have h2 : lit "\\'" = [backslash, quote] := by decide
  have h3 : lit "-" = [hyphen] := by decide
  have h4 : lit "\\-" = [backslash, hyphen] := by decide
  rw [transform_eq_flatMap]
  simp only [h1, h2, h3, h4]
  rw [Replace_single hyphen _ s (by decide), Replace_single quote _ _ (by decide),
    List.flatMap_assoc]
  apply List.flatMap_congr
  intro c _
  unfold escapeSpec
  by_cases hq : c = quote
  · subst hq; decide
  · by_cases hh : c = hyphen
    · subst hh; decide
    · simp [hq, hh]

/-! ## Lemmas on maps -/

namespace GoMap

theorem getEntries_setEntries_self (k v : GoString) (l : List (GoString × GoString)) :
    getEntries k (setEntries k v l) = some v := by
  induction l with
  | nil => simp [setEntries, getEntries]
  | cons e r ih =>
    by_cases h : e.1 = k
    · simp [setEntries, getEntries, h]
    · simp [setEntries, getEntries, h, ih]

theorem getEntries_setEntries_ne (k k' v : GoString) (l : List (GoString × GoString))
    (hk : k ≠ k') : getEntries k' (setEntries k v l) = getEntries k' l := by
  induction l with
  | nil => simp [setEntries, getEntries, hk]
  | cons e r ih =>
    by_cases h : e.1 = k
    · have h' : ¬ e.1 = k' := by rw [h]; exact hk
      simp [setEntries, getEntries, h, h', hk]
    · by_cases h' : e.1 = k'
      · have h3 : ¬ k' = k := fun h3 => hk h3.symm
        simp [setEntries, getEntries, h', h3]
      · simp [setEntries, getEntries, h, h', ih]

theorem keys_setEntries (k v : GoString) (l : List (GoString × GoString))
    (hk : k ∉ l.map Prod.fst) :
    (setEntries k v l).map Prod.fst = l.map Prod.fst ++ [k] := by
  induction l with
  | nil => simp [setEntries]
  | cons e r ih =>
    have h1 : ¬ e.1 = k := by
      intro h
      exact hk (by simp [h])
    have h2 : k ∉ r.map Prod.fst := by
      intro h
      exact hk (by simp only [List.map_cons, List.mem_cons]; exact Or.inr h)
    simp [setEntries, h1, ih h2]

theorem get?_set_self (m : GoMap) (k v : GoString) : (m.set k v).get? k = some v :=
  getEntries_setEntries_self k v m.entries

theorem get?_set_ne (m : GoMap) (k k' v : GoString) (hk : k ≠ k') :
    (m.set k v).get? k' = m.get? k' :=
  getEntries_setEntries_ne k k' v m.entries hk

theorem keys_set (m : GoMap) (k v : GoString) (hk : k ∉ m.keys) :
    (m.set k v).keys = m.keys ++ [k] :=
  keys_setEntries k v m.entries hk

theorem get?_eq_none (m : GoMap) (k : GoString) (hk : k ∉ m.keys) : m.get? k = none := by
  cases m with
  | mk l =>
    simp only [get?, keys] at hk ⊢
    induction l with
    | nil => rfl
    | cons e r ih =>
      have h1 : ¬ e.1 = k := by
        intro h
        exact hk (by simp [h])
      have h2 : k ∉ r.map Prod.fst := by
        intro h
        exact hk (by simp only [List.map_cons, List.mem_cons]; exact Or.inr h)
      simp [getEntries, h1, ih h2]

end GoMap

/-! ## Lemmas on `GetFlags` -/

/-- With all queries successful, `GetFlags` is its version step on the map of
the eight fields. -/
theorem GetFlags_of_queriesSucceed (w : World) (dir : GoString) (args : List GoString)
    (h : queriesSucceed w dir) :
    GetFlags w dir args =
      if (w.collectGovvvDirective args w.flVersion).2 then
        (some ((fieldMap w dir args).set (resolvedPackage w args ++ lit ".Version")
          (w.collectGovvvDirective args w.flVersion).1), none)
      else
        match (versionFromFile w dir).2 with
        | some err => (none, some err)
        | none =>
          if (versionFromFile w dir).1 ≠ [] then
            (some ((fieldMap w dir args).set (resolvedPackage w args ++ lit ".Version")
              (versionFromFile w dir).1), none)
          else (some (fieldMap w dir args), none) := by
  obtain ⟨h1, h2, h3, h4, h5, h6⟩ := h
  simp only [GetFlags, h1, h2, h3, h4, h5, h6]
  rfl

/-- With a failing query, `GetFlags` returns no map and an error. -/
theorem GetFlags_of_query_fails (w : World) (dir : GoString) (args : List GoString)
    (h : ¬ queriesSucceed w dir) :
    (GetFlags w dir args).1 = none ∧ (GetFlags w dir args).2 ≠ none := by
  unfold GetFlags
  cases h1 : (w.Commit dir).2 with
  | some e => simp
  | none =>
  cases h2 : (w.CommitFull dir).2 with
  | some e => simp
  | none =>
  cases h3 : (w.CommitMsg dir).2 with
  | some e => simp
  | none =>
  cases h4 : (w.CommitFullMsg dir).2 with
  | some e => simp
  | none =>
  cases h5 : (w.State dir).2 with
  | some e => simp
  | none =>
  cases h6 : (w.Summary dir).2 with
  | some e => simp
  | none => exact absurd ⟨h1, h2, h3, h4, h5, h6⟩ h

theorem key_ne (p a b : GoString) (h : a ≠ b) : p ++ a ≠ p ++ b :=
  fun h' => h (List.append_cancel_left h')

theorem fieldMap_keys (w : World) (dir : GoString) (args : List GoString) :
    (fieldMap w dir args).keys = fieldKeys (resolvedPackage w args) := by
  simp +decide [fieldMap, fieldKeys, GoMap.keys, GoMap.set, GoMap.setEntries, GoMap.empty]

theorem version_not_field (p : GoString) : p ++ lit ".Version" ∉ fieldKeys p := by
  simp +decide [fieldKeys]

theorem fieldMap_get? (w : World) (dir : GoString) (args : List GoString) :
    (fieldMap w dir args).get? (resolvedPackage w args ++ lit ".BuildDate") = some (date w) ∧
    (fieldMap w dir args).get? (resolvedPackage w args ++ lit ".GitCommit")
      = some (w.Commit dir).1 ∧
    (fieldMap w dir args).get? (resolvedPackage w args ++ lit ".GitCommitFull")
      = some (w.CommitFull dir).1 ∧
    (fieldMap w dir args).get? (resolvedPackage w args ++ lit ".GitCommitMsg")
      = some (transform (w.CommitMsg dir).1) ∧
    (fieldMap w dir args).get? (resolvedPackage w args ++ lit ".GitCommitMsgFull")
      = some (transform (w.CommitFullMsg dir).1) ∧
    (fieldMap w dir args).get? (resolvedPackage w args ++ lit ".GitBranch")
      = some (w.Branch dir) ∧
    (fieldMap w dir args).get? (resolvedPackage w args ++ lit ".GitState")
      = some (w.State dir).1 ∧
    (fieldMap w dir args).get? (resolvedPackage w args ++ lit ".GitSummary")
      = some (w.Summary dir).1 := by
  simp +decide [fieldMap, GoMap.get?, GoMap.getEntries, GoMap.set, GoMap.setEntries,
    GoMap.empty]

theorem versionFromFile_of_read (w : World) (dir c : GoString)
    (hf : w.ReadFile (w.Join dir versionFile) = (c, none)) :
    versionFromFile w dir = (TrimSpace c, none) := by
  simp [versionFromFile, hf, IsNotExist]

theorem versionFromFile_of_notExist (w : World) (dir : GoString)
    (hf : IsNotExist (w.ReadFile (w.Join dir versionFile)).2 = true) :
    versionFromFile w dir = ([], none) := by
  simp [versionFromFile, hf]

/-- The error of `versionFromFile` is exactly a failure of the read other than
file-not-found. -/
theorem versionFromFile_error_iff (w : World) (dir : GoString) :
    (versionFromFile w dir).2 ≠ none ↔
      ∃ e, (w.ReadFile (w.Join dir versionFile)).2 = some e ∧ e.notExist = false := by
  unfold versionFromFile
  cases h : (w.ReadFile (w.Join dir versionFile)).2 with
  | none => simp [IsNotExist, h]
  | some e =>
    cases hn : e.notExist with
    | true => simp [IsNotExist, h, hn]
    | false => simp [IsNotExist, h, hn]

/-- The string of `versionFromFile` when it returns without error. -/
theorem versionFromFile_value (w : World) (dir : GoString)
    (h : (versionFromFile w dir).2 = none) :
    (versionFromFile w dir).1 =
      if (w.ReadFile (w.Join dir versionFile)).2 = none then
        TrimSpace (w.ReadFile (w.Join dir versionFile)).1
      else [] := by
  revert h
  unfold versionFromFile
  cases h : (w.ReadFile (w.Join dir versionFile)).2 with
  | none => simp [IsNotExist, h]
  | some e =>
    cases hn : e.notExist with
    | true => simp [IsNotExist, h, hn]
    | false => simp [IsNotExist, h, hn]

/-- The three ways in which `GetFlags` returns without error. -/
theorem GetFlags_success_cases (w : World) (dir : GoString) (args : List GoString)
    (h : (GetFlags w dir args).2 = none) :
    queriesSucceed w dir ∧
      (((w.collectGovvvDirective args w.flVersion).2 = true ∧
          (GetFlags w dir args).1 =
            some ((fieldMap w dir args).set (resolvedPackage w args ++ lit ".Version")
              (w.collectGovvvDirective args w.flVersion).1)) ∨
        ((w.collectGovvvDirective args w.flVersion).2 = false ∧
          (versionFromFile w dir).2 = none ∧ (versionFromFile w dir).1 ≠ [] ∧
          (GetFlags w dir args).1 =
            some ((fieldMap w dir args).set (resolvedPackage w args ++ lit ".Version")
              (versionFromFile w dir).1)) ∨
        ((w.collectGovvvDirective args w.flVersion).2 = false ∧
          (versionFromFile w dir).2 = none ∧ (versionFromFile w dir).1 = [] ∧
          (GetFlags w dir args).1 = some (fieldMap w dir args))) := by
  have hq : queriesSucceed w dir := by
    by_contra hq
    exact (GetFlags_of_query_fails w dir args hq).2 h
  refine ⟨hq, ?_⟩
  rw [GetFlags_of_queriesSucceed w dir args hq] at h ⊢
  cases hv : (w.collectGovvvDirective args w.flVersion).2 with
  | true => simp
  | false =>
    rw [hv] at h
    cases hf : (versionFromFile w dir).2 with
    | some e => simp [hf] at h
    | none =>
      by_cases hne : (versionFromFile w dir).1 = []
      · simp [hne]
      · simp [hne]

/-- A list that ends with `a` is not a list that ends with `b` when the last
bytes of `a` and `b` differ. -/
theorem append_ne_of_last (t p a b : GoString) (x y : UInt8) (ha : a.getLast? = some x)
    (hb : b.getLast? = some y) (hxy : x ≠ y) : t ++ a ≠ p ++ b := by
  intro h
  have := congrArg List.getLast? h
  simp [List.getLast?_append, ha, hb] at this
  exact hxy this

theorem fieldKeys_not_version_suffix (p k : GoString) (hk : k ∈ fieldKeys p) :
    ¬ lit ".Version" <:+ k := by
  rintro ⟨t, ht⟩
  have hv : (lit ".Version").getLast? = some 110 := by decide
  simp only [fieldKeys, List.mem_cons, List.mem_singleton, List.not_mem_nil, or_false] at hk
  rcases hk with rfl | rfl | rfl | rfl | rfl | rfl | rfl | rfl
  · exact append_ne_of_last t p _ _ 110 101 hv (by decide) (by decide) ht
  · exact append_ne_of_last t p _ _ 110 116 hv (by decide) (by decide) ht
  · exact append_ne_of_last t p _ _ 110 108 hv (by decide) (by decide) ht
  · exact append_ne_of_last t p _ _ 110 103 hv (by decide) (by decide) ht
  · exact append_ne_of_last t p _ _ 110 108 hv (by decide) (by decide) ht
  · exact append_ne_of_last t p _ _ 110 104 hv (by decide) (by decide) ht
  · exact append_ne_of_last t p _ _ 110 101 hv (by decide) (by decide) ht
  · exact append_ne_of_last t p _ _ 110 121 hv (by decide) (by decide) ht

theorem fieldKeys_prefix (p k : GoString) (hk : k ∈ fieldKeys p ++ [p ++ lit ".Version"]) :
    p ++ lit "." <+: k := by
  simp only [fieldKeys, List.cons_append, List.nil_append, List.mem_cons, List.mem_singleton,
    List.not_mem_nil, or_false] at hk
  rcases hk with rfl | rfl | rfl | rfl | rfl | rfl | rfl | rfl | rfl <;>
    exact (List.prefix_append_right_inj p).2 (by decide)

theorem fieldKeys_nodup (p : GoString) : (fieldKeys p ++ [p ++ lit ".Version"]).Nodup := by
  simp +decide [fieldKeys]

/-! ## The claims on `GetFlags` -/

/-- C4: when all six queries succeed and the scan for the version flag returns
`(value, true)`, `GetFlags` succeeds and maps the key `pkg.Version` to `value`,
whatever reading the `VERSION` file would give: the result is the same under
any other behaviour of `ioutil.ReadFile`. -/
theorem version_override_wins (w : World) (dir : GoString) (args : List GoString)
    (value : GoString) (hq : queriesSucceed w dir)
    (hv : w.collectGovvvDirective args w.flVersion = (value, true)) :
    (∃ m, GetFlags w dir args = (some m, none) ∧
      m.get? (resolvedPackage w args ++ lit ".Version") = some value) ∧
    ∀ readFile : GoString → GoString × Option GoError,
      GetFlags { w with ReadFile := readFile } dir args = GetFlags w dir args := by
  constructor
  · rw [GetFlags_of_queriesSucceed w dir args hq, hv]
    exact ⟨_, rfl, GoMap.get?_set_self _ _ _⟩
  · intro readFile
    have hq' : queriesSucceed { w with ReadFile := readFile } dir := hq
    rw [GetFlags_of_queriesSucceed w dir args hq, GetFlags_of_queriesSucceed _ dir args hq',
      hv]
    rfl

/-- Witness of C4: with `1.2.3` in the file and the directive `-version 9.9.9`
the version is `9.9.9`. -/
theorem version_override_wins_witness :
    queriesSucceed (sampleWorld sampleCommit (lit "1.2.3", none)) sampleDir ∧
      (sampleWorld sampleCommit (lit "1.2.3", none)).ReadFile (lit "/src/VERSION")
        = (lit "1.2.3", none) ∧
      ∃ m, GetFlags (sampleWorld sampleCommit (lit "1.2.3", none)) sampleDir
          [lit "-version", lit "9.9.9"] = (some m, none) ∧
        m.get? (lit "main.Version") = some (lit "9.9.9") :=
  ⟨by decide, by decide,
    (version_override_wins (sampleWorld sampleCommit (lit "1.2.3", none)) sampleDir
      [lit "-version", lit "9.9.9"] (lit "9.9.9") (by decide) (by decide)).1⟩

/-- C5 as stated fails: with a readable `VERSION` file that holds only a blank
and a newline, successful queries and no version directive, `GetFlags` returns
a map without the key `main.Version`, not one that maps it to the stripped
contents. -/
theorem version_fallback_blank_file :
    queriesSucceed (sampleWorld sampleCommit (lit " \n", none)) sampleDir ∧
      ((sampleWorld sampleCommit (lit " \n", none)).collectGovvvDirective []
        (sampleWorld sampleCommit (lit " \n", none)).flVersion).2 = false ∧
      (sampleWorld sampleCommit (lit " \n", none)).ReadFile
        ((sampleWorld sampleCommit (lit " \n", none)).Join sampleDir versionFile)
          = (lit " \n", none) ∧
      ∃ m, GetFlags (sampleWorld sampleCommit (lit " \n", none)) sampleDir [] = (some m, none) ∧
        m.get? (lit "main.Version") = none ∧
        m.get? (lit "main.Version") ≠ some (TrimSpace (lit " \n")) :=
  ⟨by decide, by decide, by decide, _, rfl, by decide, by decide⟩

/-- C5, amended: when the `VERSION` file is read with contents `c`, all queries
succeed and there is no version directive, `GetFlags` succeeds; the key
`pkg.Version` is mapped to `c` with the white space around it stripped when
that is not empty, and is absent from the map when it is empty. -/
theorem version_fallback (w : World) (dir : GoString) (args : List GoString) (c : GoString)
    (hq : queriesSucceed w dir) (hv : (w.collectGovvvDirective args w.flVersion).2 = false)
    (hf : w.ReadFile (w.Join dir versionFile) = (c, none)) :
    ∃ m, GetFlags w dir args = (some m, none) ∧
      m.get? (resolvedPackage w args ++ lit ".Version")
        = if TrimSpace c = [] then none else some (TrimSpace c) := by
  rw [GetFlags_of_queriesSucceed w dir args hq, hv, versionFromFile_of_read w dir c hf]
  by_cases hc : TrimSpace c = []
  · refine ⟨fieldMap w dir args, by simp [hc], ?_⟩
    rw [if_pos hc]
    apply GoMap.get?_eq_none
    rw [fieldMap_keys]
    exact version_not_field _
  · refine ⟨(fieldMap w dir args).set (resolvedPackage w args ++ lit ".Version") (TrimSpace c),
      by simp [hc], ?_⟩
    rw [if_neg hc]
    exact GoMap.get?_set_self _ _ _

/-- Witness of C5, amended: the contents `  1.2.3\n` give the version `1.2.3`. -/
theorem version_fallback_witness :
    ∃ m, GetFlags (sampleWorld sampleCommit (lit "  1.2.3\n", none)) sampleDir []
        = (some m, none) ∧
      m.get? (lit "main.Version") = some (lit "1.2.3") :=
  version_fallback (sampleWorld sampleCommit (lit "  1.2.3\n", none)) sampleDir []
    (lit "  1.2.3\n") (by decide) (by decide) (by decide)

/-- C6 as stated fails: with a `VERSION` file that is found and not empty (it
holds a newline), no version directive and successful queries, `GetFlags`
succeeds and the map has no key `main.Version`. -/
theorem version_key_newline_file :
    ((sampleWorld sampleCommit (lit "\n", none)).collectGovvvDirective []
        (sampleWorld sampleCommit (lit "\n", none)).flVersion).2 = false ∧
      ((sampleWorld sampleCommit (lit "\n", none)).ReadFile
        ((sampleWorld sampleCommit (lit "\n", none)).Join sampleDir versionFile)).2 = none ∧
      ((sampleWorld sampleCommit (lit "\n", none)).ReadFile
        ((sampleWorld sampleCommit (lit "\n", none)).Join sampleDir versionFile)).1 ≠ [] ∧
      ∃ m, GetFlags (sampleWorld sampleCommit (lit "\n", none)) sampleDir [] = (some m, none) ∧
        lit "main.Version" ∉ m.keys :=
  ⟨by decide, by decide, by decide, _, rfl, by decide⟩

/-- C6, amended: the map of a successful `GetFlags` call has the key
`pkg.Version` if and only if the scan found a version directive or the
`VERSION` file was read and its contents are not empty once the white space
around them is stripped; with no `VERSION` file and no version directive no key
of the map ends in `.Version`. -/
theorem version_key_iff (w : World) (dir : GoString) (args : List GoString)
    (h : (GetFlags w dir args).2 = none) :
    ∃ m, (GetFlags w dir args).1 = some m ∧
      (resolvedPackage w args ++ lit ".Version" ∈ m.keys ↔
        ((w.collectGovvvDirective args w.flVersion).2 = true ∨
          ((w.ReadFile (w.Join dir versionFile)).2 = none ∧
            TrimSpace (w.ReadFile (w.Join dir versionFile)).1 ≠ []))) ∧
      ((w.collectGovvvDirective args w.flVersion).2 = false →
        IsNotExist (w.ReadFile (w.Join dir versionFile)).2 = true →
        ∀ k ∈ m.keys, ¬ lit ".Version" <:+ k) := by
  obtain ⟨_, hcase⟩ := GetFlags_success_cases w dir args h
  have hkeys : ∀ v, ((fieldMap w dir args).set (resolvedPackage w args ++ lit ".Version") v).keys
      = fieldKeys (resolvedPackage w args) ++ [resolvedPackage w args ++ lit ".Version"] := by
    intro v
    rw [GoMap.keys_set _ _ _ (by rw [fieldMap_keys]; exact version_not_field _), fieldMap_keys]
  rcases hcase with ⟨hv, hm⟩ | ⟨hv, he, hne, hm⟩ | ⟨hv, he, hnil, hm⟩
  · refine ⟨_, hm, ?_, ?_⟩
    · rw [hkeys]
      simp [hv]
    · intro hv'
      rw [hv] at hv'
      exact absurd hv' (by decide)
  · have hval := versionFromFile_value w dir he
    have hread : (w.ReadFile (w.Join dir versionFile)).2 = none := by
      by_contra hc
      rw [if_neg hc] at hval
      exact hne hval
    rw [if_pos hread] at hval
    refine ⟨_, hm, ?_, ?_⟩
    · rw [hkeys]
      have : TrimSpace (w.ReadFile (w.Join dir versionFile)).1 ≠ [] := by
        rw [← hval]; exact hne
      simp [hread, this]
    · intro _ hnot
      rw [hread] at hnot
      exact absurd hnot (by simp [IsNotExist])
  · have hval := versionFromFile_value w dir he
    refine ⟨_, hm, ?_, ?_⟩
    · rw [fieldMap_keys]
      constructor
      · intro hmem
        exact absurd hmem (version_not_field _)
      · rintro (hv' | ⟨hread, htrim⟩)
        · rw [hv] at hv'
          exact absurd hv' (by decide)
        · rw [if_pos hread, hnil] at hval
          exact absurd hval.symm htrim
    · intro _ _ k hk
      rw [fieldMap_keys] at hk
      exact fieldKeys_not_version_suffix _ k hk

/-- Witness of C6, amended: a checkout without a `VERSION` file and a call
without directives. -/
theorem version_key_iff_witness :
    (GetFlags sampleNoFile sampleDir []).2 = none ∧
      ∃ m, (GetFlags sampleNoFile sampleDir []).1 = some m ∧
        (resolvedPackage sampleNoFile [] ++ lit ".Version" ∈ m.keys ↔
          ((sampleNoFile.collectGovvvDirective [] sampleNoFile.flVersion).2 = true ∨
            ((sampleNoFile.ReadFile (sampleNoFile.Join sampleDir versionFile)).2 = none ∧
              TrimSpace (sampleNoFile.ReadFile (sampleNoFile.Join sampleDir versionFile)).1
                ≠ []))) ∧
        ((sampleNoFile.collectGovvvDirective [] sampleNoFile.flVersion).2 = false →
          IsNotExist (sampleNoFile.ReadFile (sampleNoFile.Join sampleDir versionFile)).2 = true →
          ∀ k ∈ m.keys, ¬ lit ".Version" <:+ k) :=
  ⟨by decide, version_key_iff sampleNoFile sampleDir [] (by decide)⟩

/-- C7: `GetFlags` returns an error and no map if and only if one of the six
queries fails, or there is no version directive and reading the `VERSION` file
fails with an error other than file-not-found; an error never comes with a map,
and a missing `VERSION` file is not an error. -/
theorem GetFlags_error_iff (w : World) (dir : GoString) (args : List GoString) :
    (((GetFlags w dir args).2 ≠ none ∧ (GetFlags w dir args).1 = none) ↔
      (((w.Commit dir).2 ≠ none ∨ (w.CommitFull dir).2 ≠ none ∨ (w.CommitMsg dir).2 ≠ none ∨
          (w.CommitFullMsg dir).2 ≠ none ∨ (w.State dir).2 ≠ none ∨
          (w.Summary dir).2 ≠ none) ∨
        ((w.collectGovvvDirective args w.flVersion).2 = false ∧
          ∃ e, (w.ReadFile (w.Join dir versionFile)).2 = some e ∧ e.notExist = false))) ∧
    ((GetFlags w dir args).2 ≠ none → (GetFlags w dir args).1 = none) ∧
    (queriesSucceed w dir → IsNotExist (w.ReadFile (w.Join dir versionFile)).2 = true →
      (GetFlags w dir args).2 = none ∧ (GetFlags w dir args).1 ≠ none) := by
  have hfail : ¬ queriesSucceed w dir ↔
      ((w.Commit dir).2 ≠ none ∨ (w.CommitFull dir).2 ≠ none ∨ (w.CommitMsg dir).2 ≠ none ∨
        (w.CommitFullMsg dir).2 ≠ none ∨ (w.State dir).2 ≠ none ∨
        (w.Summary dir).2 ≠ none) := by
    unfold queriesSucceed
    tauto
  by_cases hq : queriesSucceed w dir
  · have hnf := (not_iff_not.2 hfail).1 (not_not.2 hq)
    rw [GetFlags_of_queriesSucceed w dir args hq]
    cases hv : (w.collectGovvvDirective args w.flVersion).2 with
    | true =>
      refine ⟨?_, ?_, ?_⟩
      · simp [hnf]
      · simp
      · simp
    | false =>
      cases he : (versionFromFile w dir).2 with
      | some err =>
        have hex := (versionFromFile_error_iff w dir).1 (by rw [he]; simp)
        refine ⟨?_, ?_, ?_⟩
        · simp [hex]
        · simp
        · intro _ hne
          rw [versionFromFile_of_notExist w dir hne] at he
          exact absurd he (by simp)
      | none =>
        have hex : ¬ ∃ e, (w.ReadFile (w.Join dir versionFile)).2 = some e ∧ e.notExist = false := by
          intro hex
          exact (versionFromFile_error_iff w dir).2 hex he
        refine ⟨?_, ?_, ?_⟩
        · constructor
          · rintro ⟨h1, _⟩
            by_cases hne : (versionFromFile w dir).1 = [] <;> simp [hne] at h1
          · rintro (h1 | ⟨_, h2⟩)
            · exact absurd h1 hnf
            · exact absurd h2 hex
        · intro h1
          by_cases hne : (versionFromFile w dir).1 = [] <;> simp [hne] at h1
        · intro _ _
          by_cases hne : (versionFromFile w dir).1 = [] <;> simp [hne]
  · have hf := GetFlags_of_query_fails w dir args hq
    refine ⟨?_, fun _ => hf.1, fun h => absurd h hq⟩
    constructor
    · intro _
      exact Or.inl (hfail.1 hq)
    · intro _
      exact ⟨hf.2, hf.1⟩

/-- Witness of C7: a failing `Commit` query and an unreadable `VERSION` file each
give an error and no map; a missing `VERSION` file gives a map and no error. -/
theorem GetFlags_error_iff_witness :
    ((GetFlags (sampleWorld ([], some errNotRepository) ([], some errNotExist)) sampleDir []).2
        ≠ none ∧
      (GetFlags (sampleWorld ([], some errNotRepository) ([], some errNotExist)) sampleDir []).1
        = none) ∧
    ((GetFlags (sampleWorld sampleCommit ([], some errPermission)) sampleDir []).2 ≠ none ∧
      (GetFlags (sampleWorld sampleCommit ([], some errPermission)) sampleDir []).1 = none) ∧
    ((GetFlags sampleNoFile sampleDir []).2 = none ∧
      (GetFlags sampleNoFile sampleDir []).1 ≠ none) :=
  ⟨(GetFlags_error_iff (sampleWorld ([], some errNotRepository) ([], some errNotExist))
      sampleDir []).1.2 (Or.inl (Or.inl (by decide))),
    (GetFlags_error_iff (sampleWorld sampleCommit ([], some errPermission)) sampleDir []).1.2
      (Or.inr ⟨by decide, errPermission, by decide, by decide⟩),
    (GetFlags_error_iff sampleNoFile sampleDir []).2.2 (by decide) (by decide)⟩

/-- C8: the keys of the map of a successful `GetFlags` call are the eight field
keys under the resolved prefix `p`, each once, alone or with `p.Version`; with
no package directive every key begins with the default package and a dot. -/
theorem GetFlags_keys (w : World) (dir : GoString) (args : List GoString)
    (h : (GetFlags w dir args).2 = none) :
    ∃ m, (GetFlags w dir args).1 = some m ∧
      (m.keys.Perm (fieldKeys (resolvedPackage w args)) ∨
        m.keys.Perm (fieldKeys (resolvedPackage w args) ++
          [resolvedPackage w args ++ lit ".Version"])) ∧
      m.keys.Nodup ∧
      ((w.collectGovvvDirective args w.flPackage).2 = false →
        ∀ k ∈ m.keys, w.defaultPackage ++ lit "." <+: k) := by
  obtain ⟨_, hcase⟩ := GetFlags_success_cases w dir args h
  have hkeys : ∀ v, ((fieldMap w dir args).set (resolvedPackage w args ++ lit ".Version") v).keys
      = fieldKeys (resolvedPackage w args) ++ [resolvedPackage w args ++ lit ".Version"] := by
    intro v
    rw [GoMap.keys_set _ _ _ (by rw [fieldMap_keys]; exact version_not_field _), fieldMap_keys]
  have hdef : (w.collectGovvvDirective args w.flPackage).2 = false →
      resolvedPackage w args = w.defaultPackage := by
    intro hp
    simp [resolvedPackage, hp]
  have hwith : ∀ v, (w.collectGovvvDirective args w.flPackage).2 = false →
      ∀ k ∈ ((fieldMap w dir args).set (resolvedPackage w args ++ lit ".Version") v).keys,
        w.defaultPackage ++ lit "." <+: k := by
    intro v hp k hk
    rw [hkeys] at hk
    rw [← hdef hp]
    exact fieldKeys_prefix _ k hk
  rcases hcase with ⟨_, hm⟩ | ⟨_, _, _, hm⟩ | ⟨_, _, _, hm⟩
  · refine ⟨_, hm, Or.inr ?_, ?_, hwith _⟩
    · rw [hkeys]
    · rw [hkeys]; exact fieldKeys_nodup _
  · refine ⟨_, hm, Or.inr ?_, ?_, hwith _⟩
    · rw [hkeys]
    · rw [hkeys]; exact fieldKeys_nodup _
  · refine ⟨_, hm, Or.inl ?_, ?_, ?_⟩
    · rw [fieldMap_keys]
    · rw [fieldMap_keys]
      exact (List.nodup_append.1 (fieldKeys_nodup _)).1
    · intro hp k hk
      rw [fieldMap_keys] at hk
      rw [← hdef hp]
      exact fieldKeys_prefix _ k (List.mem_append_left _ hk)

/-- Witness of C8: the sample checkout with a `VERSION` file and a call without
directives. -/
theorem GetFlags_keys_witness :
    (GetFlags sampleWithFile sampleDir []).2 = none ∧
      ∃ m, (GetFlags sampleWithFile sampleDir []).1 = some m ∧
        (m.keys.Perm (fieldKeys (lit "main")) ∨
          m.keys.Perm (fieldKeys (lit "main") ++ [lit "main.Version"])) ∧
        m.keys.Nodup ∧
        ((sampleWithFile.collectGovvvDirective [] sampleWithFile.flPackage).2 = false →
          ∀ k ∈ m.keys, lit "main." <+: k) :=
  ⟨by decide, GetFlags_keys sampleWithFile sampleDir [] (by decide)⟩

/-- C9: in the map of a successful `GetFlags` call the values under
`GitCommitMsg` and `GitCommitMsgFull` are `transform` applied once to the
results of `CommitMsg` and `CommitFullMsg`, and the values under `GitBranch`,
`GitSummary`, `GitState`, `GitCommit` and `GitCommitFull` are the results of
the queries as they are. -/
theorem GetFlags_values (w : World) (dir : GoString) (args : List GoString)
    (h : (GetFlags w dir args).2 = none) :
    ∃ m, (GetFlags w dir args).1 = some m ∧
      m.get? (resolvedPackage w args ++ lit ".GitCommitMsg")
        = some (transform (w.CommitMsg dir).1) ∧
      m.get? (resolvedPackage w args ++ lit ".GitCommitMsgFull")
        = some (transform (w.CommitFullMsg dir).1) ∧
      m.get? (resolvedPackage w args ++ lit ".GitBranch") = some (w.Branch dir) ∧
      m.get? (resolvedPackage w args ++ lit ".GitSummary") = some (w.Summary dir).1 ∧
      m.get? (resolvedPackage w args ++ lit ".GitState") = some (w.State dir).1 ∧
      m.get? (resolvedPackage w args ++ lit ".GitCommit") = some (w.Commit dir).1 ∧
      m.get? (resolvedPackage w args ++ lit ".GitCommitFull") = some (w.CommitFull dir).1 := by
  obtain ⟨_, hcase⟩ := GetFlags_success_cases w dir args h
  obtain ⟨_, g2, g3, g4, g5, g6, g7, g8⟩ := fieldMap_get? w dir args
  have hset : ∀ (v sfx : GoString), sfx ≠ lit ".Version" →
      ((fieldMap w dir args).set (resolvedPackage w args ++ lit ".Version") v).get?
        (resolvedPackage w args ++ sfx) = (fieldMap w dir args).get? (resolvedPackage w args ++ sfx) := by
    intro v sfx hs
    exact GoMap.get?_set_ne _ _ _ _ (key_ne _ _ _ (Ne.symm hs))
  have hwith : ∀ v m, m = (fieldMap w dir args).set (resolvedPackage w args ++ lit ".Version") v →
      m.get? (resolvedPackage w args ++ lit ".GitCommitMsg")
        = some (transform (w.CommitMsg dir).1) ∧
      m.get? (resolvedPackage w args ++ lit ".GitCommitMsgFull")
        = some (transform (w.CommitFullMsg dir).1) ∧
      m.get? (resolvedPackage w args ++ lit ".GitBranch") = some (w.Branch dir) ∧
      m.get? (resolvedPackage w args ++ lit ".GitSummary") = some (w.Summary dir).1 ∧
      m.get? (resolvedPackage w args ++ lit ".GitState") = some (w.State dir).1 ∧
      m.get? (resolvedPackage w args ++ lit ".GitCommit") = some (w.Commit dir).1 ∧
      m.get? (resolvedPackage w args ++ lit ".GitCommitFull") = some (w.CommitFull dir).1 := by
    intro v m hm
    subst hm
    rw [hset v (lit ".GitCommitMsg") (by decide), hset v (lit ".GitCommitMsgFull") (by decide),
      hset v (lit ".GitBranch") (by decide), hset v (lit ".GitSummary") (by decide),
      hset v (lit ".GitState") (by decide), hset v (lit ".GitCommit") (by decide),
      hset v (lit ".GitCommitFull") (by decide)]
    exact ⟨g4, g5, g6, g8, g7, g2, g3⟩
  rcases hcase with ⟨_, hm⟩ | ⟨_, _, _, hm⟩ | ⟨_, _, _, hm⟩
  · exact ⟨_, hm, hwith _ _ rfl⟩
  · exact ⟨_, hm, hwith _ _ rfl⟩
  · exact ⟨_, hm, g4, g5, g6, g8, g7, g2, g3⟩

/-- Witness of C9: in the sample checkout the commit message `it's-a-test` is
escaped, the branch `fix-it` and the summary `v1.0-2-g1a2b3c4-dirty` are not. -/
theorem GetFlags_values_witness :
    (GetFlags sampleWithFile sampleDir [lit "-pkg", lit "app/build"]).2 = none ∧
      ∃ m, (GetFlags sampleWithFile sampleDir [lit "-pkg", lit "app/build"]).1 = some m ∧
        m.get? (lit "app/build.GitCommitMsg") = some (lit "it\\'s\\-a\\-test") ∧
        m.get? (lit "app/build.GitCommitMsgFull") = some (lit "it\\'s\\-a\\-test\n\nbody") ∧
        m.get? (lit "app/build.GitBranch") = some (lit "fix-it") ∧
        m.get? (lit "app/build.GitSummary") = some (lit "v1.0-2-g1a2b3c4-dirty") ∧
        m.get? (lit "app/build.GitState") = some (lit "dirty") ∧
        m.get? (lit "app/build.GitCommit") = some (lit "1a2b3c4") ∧
        m.get? (lit "app/build.GitCommitFull") = some (lit "1a2b3c4d5e6f") :=
  ⟨by decide,
    GetFlags_values sampleWithFile sampleDir [lit "-pkg", lit "app/build"] (by decide)⟩

end Govvv
